import Mathlib

/-!
Verification development for the latex2go expression compiler.

This file is a shallow embedding of the repository's core pipeline:
the lexer and Pratt parser (internal/domain/parser: lexer.go, parser.go,
limit_parser source file) and the Go-code generator
(internal/domain/generator/generator.go), over the AST of
internal/domain/ast.  Theorems at the end settle the specification's
testable properties.

Modelling conventions:
* Go `float64` literal values are modelled as rationals (`ℚ`).  Every
  numeric literal in the inputs considered here is a short decimal that
  `float64` represents exactly, so Go's `strconv.ParseFloat` / `%g`
  round-trip is the identity on the decimal digits, which is what
  `parseDecimal` / `gFmt` compute.
* Source positions are counted in characters.  All inputs considered are
  ASCII, where this coincides with Go's byte offsets.
* Go recursion and loops are modelled with an explicit fuel parameter;
  `.timeout` means the fuel ran out.  A run returning `.ok`/`.err` at some
  fuel is the result of the Go execution (extra fuel is never observed);
  a run returning `.timeout` at every fuel is a non-terminating Go
  execution.
* `go/format.Source` is external library code, not part of this
  repository: it reparses the generated source, errors when the source is
  not syntactically valid Go, and otherwise returns it with normalized
  whitespace.  `Generate` here returns the source string the generator
  assembles and hands to that call; error paths taken before the
  formatting step are modelled exactly.
-/

set_option maxRecDepth 40000

namespace Latex2Go

/-! ## AST (internal/domain/ast/ast.go)

`PiecewiseCase` is inlined as a pair `(Value, Condition)`; a `nil`
`Condition` is `none`.  `IntegralExpr`'s nilable bounds are `Option Expr`.
-/

inductive Expr where
  | NumberLiteral (value : ℚ)
  | Variable (name : String)
  | BinaryExpr (op : String) (left right : Expr)
  | FuncCall (funcName : String) (args : List Expr)
  | SumExpr (isProduct : Bool) (var : String) (lower upper body : Expr)
  | IntegralExpr (isDefinite : Bool) (var : String) (lower upper : Option Expr) (body : Expr)
  | DerivativeExpr (isPartial : Bool) (var : String) (order : Int) (body : Expr)
  | LimitExpr (var : String) (approaches body : Expr)
  | FactorialExpr (value : Expr)
  | PiecewiseExpr (cases : List (Expr × Option Expr))
  deriving Repr

/-! ## Tokens and lexer (internal/domain/parser/lexer.go) -/

inductive TokenType where
  | ILLEGAL | EOF | IDENT | NUMBER
  | PLUS | MINUS | ASTERISK | SLASH | CARET | EQUALS | EXCLAMATION
  | LPAREN | RPAREN | LBRACE | RBRACE | UNDERSCORE
  | COMMAND | BEGIN | END
  deriving DecidableEq, Repr

/-- Port of TokenType.String(). -/
def TokenType.str : TokenType → String
  | .ILLEGAL => "ILLEGAL"
  | .EOF => "EOF"
  | .IDENT => "IDENT"
  | .NUMBER => "NUMBER"
  | .PLUS => "PLUS"
  | .MINUS => "MINUS"
  | .ASTERISK => "ASTERISK"
  | .SLASH => "SLASH"
  | .CARET => "CARET"
  | .EQUALS => "EQUALS"
  | .EXCLAMATION => "EXCLAMATION"
  | .LPAREN => "LPAREN"
  | .RPAREN => "RPAREN"
  | .LBRACE => "LBRACE"
  | .RBRACE => "RBRACE"
  | .UNDERSCORE => "UNDERSCORE"
  | .COMMAND => "COMMAND"
  | .BEGIN => "BEGIN"
  | .END => "END"

structure Token where
  type : TokenType
  literal : String
  pos : Nat
  deriving DecidableEq, Repr

/-- Lexer state: the characters from the current char onward, and the
position (character index) of the head character.  Mirrors Go's
`position` / `ch`; `rest = []` plays the role of `ch = 0` (end of input). -/
structure LexState where
  rest : List Char
  pos : Nat
  deriving DecidableEq, Repr

/-- Port of isLetter. -/
def isLetterCh (c : Char) : Bool :=
  ('a' ≤ c && c ≤ 'z') || ('A' ≤ c && c ≤ 'Z')

/-- Port of isDigit. -/
def isDigitCh (c : Char) : Bool :=
  '0' ≤ c && c ≤ '9'

/-- Models unicode.IsSpace restricted to the whitespace characters that can
occur in the (ASCII) inputs considered here.  Go additionally accepts a few
exotic Unicode space runes that never appear below. -/
def isSpaceCh (c : Char) : Bool :=
  c = ' ' || c = '\t' || c = '\n' || c = '\r' || c = '\x0b' || c = '\x0c'

/-- Port of skipWhitespace. -/
def skipWs : List Char → Nat → List Char × Nat
  | [], p => ([], p)
  | c :: cs, p => if isSpaceCh c then skipWs cs (p + 1) else (c :: cs, p)

/-- Port of readNumber's loop: digit run with at most one interior `.`,
where a `.` not followed by a digit is not consumed. -/
def readNum : List Char → Bool → List Char
  | [], _ => []
  | c :: cs, hasDec =>
    if isDigitCh c then c :: readNum cs hasDec
    else if c = '.' && !hasDec then
      match cs with
      | [] => []
      | d :: _ => if isDigitCh d then c :: readNum cs true else []
    else []

/-- Port of newToken.  Go's `newToken` builds `Token{Type, Literal}` whose
`Pos` field is the zero value 0, overwriting the position assigned earlier
in `NextToken`; single-character tokens therefore all carry position 0. -/
def newToken (t : TokenType) (c : Char) : Token :=
  ⟨t, c.toString, 0⟩

/-- Port of Lexer.NextToken. -/
def nextTokenL (ls : LexState) : Token × LexState :=
  let (rest, pos) := skipWs ls.rest ls.pos
  match rest with
  | [] => (⟨.EOF, "", pos⟩, ⟨[], pos⟩)
  | c :: cs =>
    if c = '+' then (newToken .PLUS c, ⟨cs, pos + 1⟩)
    else if c = '-' then (newToken .MINUS c, ⟨cs, pos + 1⟩)
    else if c = '*' then (newToken .ASTERISK c, ⟨cs, pos + 1⟩)
    else if c = '/' then (newToken .SLASH c, ⟨cs, pos + 1⟩)
    else if c = '^' then (newToken .CARET c, ⟨cs, pos + 1⟩)
    else if c = '=' then (newToken .EQUALS c, ⟨cs, pos + 1⟩)
    else if c = '!' then (newToken .EXCLAMATION c, ⟨cs, pos + 1⟩)
    else if c = '_' then (newToken .UNDERSCORE c, ⟨cs, pos + 1⟩)
    else if c = '(' then (newToken .LPAREN c, ⟨cs, pos + 1⟩)
    else if c = ')' then (newToken .RPAREN c, ⟨cs, pos + 1⟩)
    else if c = '\x7b' then (newToken .LBRACE c, ⟨cs, pos + 1⟩)
    else if c = '\x7d' then (newToken .RBRACE c, ⟨cs, pos + 1⟩)
    else if c = '\\' then
      -- readCommand; Go sets tok.Pos = l.position after the read,
      -- i.e. the index just past the command word.
      let word := cs.takeWhile isLetterCh
      let p2 := pos + 1 + word.length
      let lit := word.asString
      let ty : TokenType :=
        if lit = "begin" then .BEGIN else if lit = "end" then .END else .COMMAND
      (⟨ty, lit, p2⟩, ⟨cs.dropWhile isLetterCh, p2⟩)
    else if isLetterCh c then
      let word := (c :: cs).takeWhile isLetterCh
      (⟨.IDENT, word.asString, pos⟩, ⟨(c :: cs).dropWhile isLetterCh, pos + word.length⟩)
    else if isDigitCh c then
      let word := readNum (c :: cs) false
      (⟨.NUMBER, word.asString, pos⟩, ⟨(c :: cs).drop word.length, pos + word.length⟩)
    else (newToken .ILLEGAL c, ⟨cs, pos + 1⟩)

/-! ## Numeric literal values

`parseDecimal` models `strconv.ParseFloat` and `gFmt` models
`fmt.Sprintf("%g", ·)` on the exactly-representable short decimals the
lexer produces in the inputs considered (integers print without a decimal
point, other short decimals with their digits). -/

def digitsToNat (l : List Char) : Nat :=
  l.foldl (fun acc c => acc * 10 + (c.toNat - '0'.toNat)) 0

def parseDecimal (s : String) : Option ℚ :=
  let l := s.toList
  let intPart := l.takeWhile isDigitCh
  let rest := l.dropWhile isDigitCh
  if intPart = [] then none
  else
    match rest with
    | [] => some (digitsToNat intPart : ℚ)
    | '.' :: fr =>
      if fr ≠ [] ∧ fr.all isDigitCh then
        some ((digitsToNat intPart : ℚ) + (digitsToNat fr : ℚ) / ((10 : ℚ) ^ fr.length))
      else none
    | _ => none

def fracDigitsQ : Nat → ℚ → String
  | 0, _ => ""
  | n + 1, q =>
    if q = 0 then ""
    else
      let q10 := q * 10
      let d : ℤ := q10.num / (q10.den : ℤ)
      toString d ++ fracDigitsQ n (q10 - (d : ℚ))

def gFmt (q : ℚ) : String :=
  if q.den = 1 then toString q.num
  else
    let a := |q|
    let ip : ℤ := a.num / (a.den : ℤ)
    (if q < 0 then "-" else "") ++ toString ip ++ "." ++ fracDigitsQ 17 (a - (ip : ℚ))

/-! ## String helpers used by the embedding -/

/-- Models strings.HasPrefix. -/
def strStartsWith (s pre : String) : Bool :=
  pre.toList.isPrefixOf s.toList

/-- Substring search: models strings.Contains-style checks used only in the
theorem statements below to say "the emitted source contains/lacks a
fragment". -/
def listInfixOf (needle : List Char) : List Char → Bool
  | [] => needle.isPrefixOf []
  | c :: cs => needle.isPrefixOf (c :: cs) || listInfixOf needle cs

def containsStr (hay needle : String) : Bool :=
  listInfixOf needle.toList hay.toList

/-! ## Parser state and helpers (internal/domain/parser/parser.go) -/

structure PState where
  lex : LexState
  cur : Token
  peek : Token
  errors : List String
  deriving DecidableEq, Repr

/-- Port of Parser.nextToken. -/
def advanceP (p : PState) : PState :=
  let (t, lx) := nextTokenL p.lex
  ⟨lx, p.peek, t, p.errors⟩

def zeroToken : Token := ⟨.ILLEGAL, "", 0⟩

/-- Port of newStatefulParser: fresh lexer, then two nextToken calls. -/
def mkParser (input : String) : PState :=
  advanceP (advanceP ⟨⟨input.toList, 0⟩, zeroToken, zeroToken, []⟩)

/-- Port of Parser.addError (message prefixed with the current token's
position). -/
def addErr (p : PState) (msg : String) : PState :=
  { p with errors := p.errors ++ ["parse error at pos " ++ toString p.cur.pos ++ ": " ++ msg] }

/-- Port of Parser.peekError. -/
def peekErrS (p : PState) (t : TokenType) : PState :=
  addErr p ("expected next token to be " ++ t.str ++ ", got " ++ p.peek.type.str
    ++ " ('" ++ p.peek.literal ++ "') instead")

/-- Port of Parser.expectPeek. -/
def expectPeek (p : PState) (t : TokenType) : Bool × PState :=
  if p.peek.type = t then (true, advanceP p) else (false, peekErrS p t)

/-- Precedence constants (iota block in parser.go). -/
def LOWEST : Nat := 1
def SUMPREC : Nat := 2
def PRODUCTPREC : Nat := 3
def EXPONENTPREC : Nat := 4
def PREFIXPREC : Nat := 5
def POSTFIXPREC : Nat := 6
def CALLPREC : Nat := 7

/-- Port of the `precedences` map; absent token kinds give LOWEST
(peekPrecedence / curPrecedence default). -/
def precOf : TokenType → Nat
  | .PLUS => SUMPREC
  | .MINUS => SUMPREC
  | .ASTERISK => PRODUCTPREC
  | .SLASH => PRODUCTPREC
  | .CARET => EXPONENTPREC
  | .EXCLAMATION => POSTFIXPREC
  | .LPAREN => CALLPREC
  | .COMMAND => CALLPREC
  | _ => LOWEST

/-- Parser computation result: value or error, each with the parser state
at that point, or `.timeout` when the fuel ran out. -/
inductive PRes (α : Type) where
  | ok (val : α) (st : PState)
  | err (msg : String) (st : PState)
  | timeout
  deriving Repr

/-- Models strings.ToLower on the ASCII words compared here. -/
def toLowerStr (s : String) : String :=
  (s.toList.map Char.toLower).asString

/-- Port of parseLimitExpression's "to" detection (the four cases). -/
def detectTo (p : PState) : Bool × PState :=
  if p.cur.type = .IDENT ∧ toLowerStr p.cur.literal = "to" then (true, advanceP p)
  else if p.cur.type = .COMMAND ∧ p.cur.literal = "to" then (true, advanceP p)
  else if p.cur.type = .COMMAND ∧ p.peek.type = .IDENT ∧
      (p.peek.literal = "o" ∨ p.peek.literal = "to") then (true, advanceP (advanceP p))
  else if p.cur.type = .IDENT ∧ p.cur.literal = "t" ∧ p.peek.type = .IDENT ∧
      p.peek.literal = "o" then (true, advanceP (advanceP p))
  else (false, p)

/-- Port of the first skip loop in parseLimitExpression: advance while the
current token is none of IDENT/COMMAND/NUMBER/RBRACE.  At end of input the
lexer keeps producing EOF tokens, which also satisfy the loop condition:
the Go loop then never exits, which surfaces here as `none` at every
fuel. -/
def skipSigA : Nat → PState → Option PState
  | 0, _ => none
  | n + 1, p =>
    if p.cur.type ≠ .IDENT ∧ p.cur.type ≠ .COMMAND ∧ p.cur.type ≠ .NUMBER ∧
        p.cur.type ≠ .RBRACE then
      skipSigA n (advanceP p)
    else some p

/-- Port of the second skip loop in parseLimitExpression (same token set,
written in the source's order IDENT/NUMBER/COMMAND/RBRACE). -/
def skipSigB : Nat → PState → Option PState
  | 0, _ => none
  | n + 1, p =>
    if p.cur.type ≠ .IDENT ∧ p.cur.type ≠ .NUMBER ∧ p.cur.type ≠ .COMMAND ∧
        p.cur.type ≠ .RBRACE then
      skipSigB n (advanceP p)
    else some p

def advanceN : Nat → PState → PState
  | 0, p => p
  | k + 1, p => advanceN k (advanceP p)

/-- Port of the bounded `for k := 0; k < 3` scan for "to" in the lim
fallback path of parseCommandExpression. -/
def toScan3 : Nat → PState → PState
  | 0, p => p
  | k + 1, p =>
    if (p.cur.type = .IDENT ∧ p.cur.literal = "to") ∨
        (p.cur.type = .COMMAND ∧ p.cur.literal = "to") then advanceP p
    else toScan3 k (advanceP p)

def isBoundaryCh (c : Char) : Bool :=
  c = '\x7b' || c = '\x7d' || c = '(' || c = ')' || c = '+' || c = '-' ||
  c = '*' || c = '/' || c = '^' || c = '_' || c = '\\'

def boundaryTok (c : Char) : TokenType × String :=
  if c = '\x7b' then (.LBRACE, "\x7b")
  else if c = '\x7d' then (.RBRACE, "\x7d")
  else if c = '(' then (.LPAREN, "(")
  else if c = ')' then (.RPAREN, ")")
  else if c = '+' then (.PLUS, "+")
  else if c = '-' then (.MINUS, "-")
  else if c = '*' then (.ASTERISK, "*")
  else if c = '/' then (.SLASH, "/")
  else if c = '^' then (.CARET, "^")
  else if c = '_' then (.UNDERSCORE, "_")
  else (.COMMAND, "\\")

/-- Port of the character-scanning part of peekNTokens (n ≥ 2): walk the
raw input from the lexer's position, counting only boundary characters. -/
def peekScan : List Char → Nat → Nat → TokenType × String
  | [], _, _ => (.EOF, "")
  | c :: cs, skip, nn =>
    if ¬ skip < nn then (.EOF, "")
    else if c = ' ' || c = '\t' || c = '\n' || c = '\r' then peekScan cs skip nn
    else if isBoundaryCh c then
      if skip + 1 = nn then boundaryTok c else peekScan cs (skip + 1) nn
    else peekScan cs skip nn

/-- Port of Parser.peekNTokens. -/
def peekNTokens (p : PState) (nn : Nat) : TokenType × String :=
  if nn = 0 then (p.cur.type, p.cur.literal)
  else if nn = 1 then (p.peek.type, p.peek.literal)
  else peekScan p.lex.rest 2 nn

/-- Port of parseIdentifier. -/
def parseIdentifierP (p : PState) : PRes Expr :=
  .ok (.Variable p.cur.literal) p

/-- Port of parseNumberLiteral.  The error branch is unreachable for
lexer-produced NUMBER tokens; its message models the Go-wrapped strconv
error. -/
def parseNumberLiteralP (p : PState) : PRes Expr :=
  match parseDecimal p.cur.literal with
  | some v => .ok (.NumberLiteral v) p
  | none =>
    let msg := "could not parse '" ++ p.cur.literal ++ "' as float: invalid syntax"
    .err msg (addErr p msg)

/-- Port of the arity/unexpected-token epilogue of parseCommandExpression:
`requiredArgs` check, then the check that the peek token is one of
EOF/RPAREN/RBRACE or an operator, then the FuncCall node. -/
def finishCommandP (funcName : String) (args : List Expr) (p : PState)
    (required : Option Nat) : PRes Expr :=
  let arityBad : Bool := match required with
    | some r => args.length != r
    | none => false
  if arityBad then
    let msg := "\\" ++ funcName ++ " requires " ++
      toString (required.getD 0) ++ " argument(s), got " ++ toString args.length
    .err msg (addErr p msg)
  else
    if p.peek.type ≠ .EOF ∧ p.peek.type ≠ .RPAREN ∧ p.peek.type ≠ .RBRACE ∧
        ¬(p.peek.type = .PLUS ∨ p.peek.type = .MINUS ∨ p.peek.type = .ASTERISK ∨
          p.peek.type = .SLASH ∨ p.peek.type = .CARET) then
      let msg := "unexpected token '" ++ p.peek.type.str ++ "' after expression"
      .err msg (addErr p msg)
    else .ok (.FuncCall funcName args) p

mutual

/-- Port of Parser.parseExpression: prefix dispatch (the registered
prefixParseFns), then the Pratt loop. -/
def parseExpressionF : Nat → Nat → PState → PRes Expr
  | 0, _, _ => .timeout
  | n + 1, prec, p =>
    let pref : PRes Expr :=
      match p.cur.type with
      | .IDENT => parseIdentifierP p
      | .NUMBER => parseNumberLiteralP p
      | .LPAREN => parseGroupedF n p
      | .MINUS => parsePrefixF n p
      | .COMMAND => parseCommandF n p
      | .BEGIN => parsePiecewiseF n p
      | t =>
        let msg := "no prefix parse function found for token " ++ t.str ++
          " ('" ++ p.cur.literal ++ "')"
        .err msg (addErr p msg)
    match pref with
    | .ok left p' => prattLoopF n prec left p'
    | r => r
termination_by structural x => x

/-- Port of parseExpression's `for` loop: extend the left operand while the
peek token's infix precedence exceeds `prec`.  The registered
infixParseFns are the five binary operators and EXCLAMATION
(parseFactorialExpression, which builds the node and consumes one more
token). -/
def prattLoopF : Nat → Nat → Expr → PState → PRes Expr
  | 0, _, _, _ => .timeout
  | n + 1, prec, left, p =>
    if p.peek.type ≠ .EOF ∧ prec < precOf p.peek.type then
      match p.peek.type with
      | .PLUS | .MINUS | .ASTERISK | .SLASH | .CARET =>
        match parseInfixF n left (advanceP p) with
        | .ok e p' => prattLoopF n prec e p'
        | r => r
      | .EXCLAMATION =>
        prattLoopF n prec (.FactorialExpr left) (advanceP (advanceP p))
      | _ => .ok left p
    else .ok left p
termination_by structural x => x

/-- Port of parseInfixExpression; the right operand of `^` is parsed at
`precedence - 1`. -/
def parseInfixF : Nat → Expr → PState → PRes Expr
  | 0, _, _ => .timeout
  | n + 1, left, p =>
    let op := p.cur.literal
    let precedence := precOf p.cur.type
    let rprec := if op = "^" then precedence - 1 else precedence
    match parseExpressionF n rprec (advanceP p) with
    | .ok right p' => .ok (.BinaryExpr op left right) p'
    | r => r
termination_by structural x => x

/-- Port of parseGroupedExpression. -/
def parseGroupedF : Nat → PState → PRes Expr
  | 0, _ => .timeout
  | n + 1, p =>
    match parseExpressionF n LOWEST (advanceP p) with
    | .ok e p' =>
      match expectPeek p' .RPAREN with
      | (true, p2) => .ok e p2
      | (false, p2) => .err "missing closing parenthesis" p2
    | r => r
termination_by structural x => x

/-- Port of parsePrefixExpression: unary minus desugars to
`-1 * operand`. -/
def parsePrefixF : Nat → PState → PRes Expr
  | 0, _ => .timeout
  | n + 1, p =>
    if p.cur.type ≠ .MINUS then
      let msg := "expected prefix operator (e.g., '-'), got " ++ p.cur.type.str
      .err msg (addErr p msg)
    else
      match parseExpressionF n PREFIXPREC (advanceP p) with
      | .ok right p' => .ok (.BinaryExpr "*" (.NumberLiteral (-1)) right) p'
      | r => r
termination_by structural x => x

/-- Port of parseCommandExpression (dispatch part): \lim with underscore,
\sum/\prod, \int, the \lim-with-brace special attempt (which can fall
through with partially consumed state), then the generic brace-argument
loop and epilogue. -/
def parseCommandF : Nat → PState → PRes Expr
  | 0, _ => .timeout
  | n + 1, p0 =>
    let funcName := p0.cur.literal
    if funcName = "lim" ∧ p0.peek.type = .UNDERSCORE then
      parseLimitF n false (advanceP p0)
    else if funcName = "sum" ∨ funcName = "prod" then
      parseSumProdF n p0
    else if funcName = "int" then
      parseIntF n p0
    else
      let afterLim : Sum (PRes Expr) PState :=
        if funcName = "lim" ∧ p0.peek.type = .LBRACE then
          let p1 := advanceP p0
          if p1.peek.type = .IDENT then
            let varName := p1.peek.literal
            let p2 := advanceP p1
            if p2.peek.type = .IDENT ∧ p2.peek.literal = "to" then
              let p3 := advanceP (advanceP p2)
              if p3.cur.type = .NUMBER then
                let approaches := Expr.NumberLiteral ((parseDecimal p3.cur.literal).getD 0)
                if p3.peek.type = .RBRACE then
                  let p4 := advanceP (advanceP p3)
                  Sum.inl (match parseExpressionF n LOWEST p4 with
                    | .ok body p5 => .ok (.LimitExpr varName approaches body) p5
                    | r => r)
                else Sum.inr p3
              else Sum.inr p3
            else Sum.inr p2
          else Sum.inr p1
        else Sum.inr p0
      match afterLim with
      | Sum.inl r => r
      | Sum.inr p1 =>
        match argLoopF n funcName [] p1 with
        | .ok args p2 =>
          if args.length = 0 ∧ funcName ≠ "sum" ∧ funcName ≠ "prod" then
            let msg := "expected '\x7b' arguments after command '\\" ++ funcName ++
              "', got " ++ p2.peek.type.str
            .err msg (addErr p2 msg)
          else
            afterArgsF n funcName args p2
        | .err m st => .err m st
        | .timeout => .timeout
termination_by structural x => x

/-- Port of the `switch strings.ToLower(funcName)` block of
parseCommandExpression: the \frac derivative idiom, the \lim fallback
scan, and the fixed arities. -/
def afterArgsF : Nat → String → List Expr → PState → PRes Expr
  | 0, _, _, _ => .timeout
  | n + 1, funcName, args, p =>
    let lowerName := toLowerStr funcName
    if lowerName = "frac" then
      let deriv? : Option (Bool × String) :=
        match args with
        | [Expr.Variable nm, Expr.Variable dn] =>
          if nm = "d" ∨ nm = "\\partial" then
            if strStartsWith dn "d" ∨ strStartsWith dn "\\partial " then
              if strStartsWith dn "d" then some (false, dn.drop 1)
              else some (true, dn.drop 9)
            else none
          else none
        | _ => none
      match deriv? with
      | some (isPartial, diffVar) =>
        if p.peek.type = .IDENT ∨ p.peek.type = .COMMAND ∨ p.peek.type = .LPAREN ∨
            p.peek.type = .NUMBER then
          match parseExpressionF n LOWEST p with
          | .ok body p' => .ok (.DerivativeExpr isPartial diffVar 1 body) p'
          | r => r
        else finishCommandP funcName args p (some 2)
      | none => finishCommandP funcName args p (some 2)
    else if lowerName = "lim" then
      limFallbackF n funcName args p 1
    else if lowerName = "sqrt" ∨ lowerName = "sin" ∨ lowerName = "cos" ∨
        lowerName = "tan" then
      finishCommandP funcName args p (some 1)
    else
      finishCommandP funcName args p none
termination_by structural x => x

/-- Port of the `case "lim"` lookahead loop (`for i := 1; i <= 5`) of
parseCommandExpression. -/
def limFallbackF : Nat → String → List Expr → PState → Nat → PRes Expr
  | 0, _, _, _, _ => .timeout
  | n + 1, funcName, args, p, i =>
    if i > 5 then finishCommandP funcName args p (some 1)
    else
      let (pt, pl) := peekNTokens p i
      if pt = .LBRACE then
        parseLimitF n true (advanceN i p)
      else if pt = .IDENT ∧ pl ≠ "" ∧ pl ≠ "to" then
        let p1 := advanceN (i - 1) p
        let p2 := advanceP p1
        let p3 := toScan3 3 p2
        match parseExpressionF n LOWEST p3 with
        | .ok approaches p4 =>
          match parseExpressionF n LOWEST p4 with
          | .ok body p5 => .ok (.LimitExpr pl approaches body) p5
          | r => r
        | r => r
      else limFallbackF n funcName args p (i + 1)
termination_by structural x => x

/-- Port of the `\sum`/`\prod` branch of parseCommandExpression. -/
def parseSumProdF : Nat → PState → PRes Expr
  | 0, _ => .timeout
  | n + 1, p0 =>
    let funcName := p0.cur.literal
    let isProduct := funcName = "prod"
    if p0.peek.type ≠ .UNDERSCORE then
      let msg := "expected '_' for lower bound after \\" ++ funcName
      .err msg (addErr p0 msg)
    else
      let p1 := advanceP p0
      if p1.peek.type ≠ .LBRACE then
        let msg := "expected '\x7b' after '_' in \\" ++ funcName
        .err msg (addErr p1 msg)
      else
        let p2 := advanceP (advanceP p1)
        if p2.cur.type = .IDENT then
          let varName := p2.cur.literal
          let p3 := advanceP p2
          if p3.cur.type ≠ .EQUALS then
            let msg := "expected '=' after variable in \\" ++ funcName ++ " lower bound"
            .err msg (addErr p3 msg)
          else
            match parseExpressionF n LOWEST (advanceP p3) with
            | .ok lower p5 =>
              if p5.peek.type ≠ .RBRACE then
                let msg := "expected '\x7d' after lower bound in \\" ++ funcName
                .err msg (addErr p5 msg)
              else
                let p6 := advanceP p5
                if p6.peek.type ≠ .CARET then
                  let msg := "expected '^' for upper bound after lower bound in \\" ++ funcName
                  .err msg (addErr p6 msg)
                else
                  let p7 := advanceP (advanceP p6)
                  if p7.cur.type ≠ .LBRACE then
                    let msg := "expected '\x7b' after '^' in \\" ++ funcName
                    .err msg (addErr p7 msg)
                  else
                    match parseExpressionF n LOWEST (advanceP p7) with
                    | .ok upper p9 =>
                      if p9.peek.type ≠ .RBRACE then
                        let msg := "expected '\x7d' after upper bound in \\" ++ funcName
                        .err msg (addErr p9 msg)
                      else
                        match parseExpressionF n LOWEST (advanceP (advanceP p9)) with
                        | .ok body p11 =>
                          .ok (.SumExpr isProduct varName lower upper body) p11
                        | r => r
                    | r => r
            | r => r
        else
          let msg := "expected identifier for summation variable in \\" ++ funcName
          .err msg (addErr p2 msg)
termination_by structural x => x

/-- Port of the `\int` branch of parseCommandExpression. -/
def parseIntF : Nat → PState → PRes Expr
  | 0, _ => .timeout
  | n + 1, p0 =>
    let funcName := p0.cur.literal
    let boundsRes : PRes (Option Expr × Option Expr) :=
      if p0.peek.type = .UNDERSCORE then
        let p1 := advanceP p0
        if p1.peek.type ≠ .LBRACE then
          let msg := "expected '\x7b' after '_' in \\" ++ funcName
          .err msg (addErr p1 msg)
        else
          match parseExpressionF n LOWEST (advanceP (advanceP p1)) with
          | .ok lower p3 =>
            if p3.peek.type ≠ .RBRACE then
              let msg := "expected '\x7d' after lower bound in \\" ++ funcName
              .err msg (addErr p3 msg)
            else
              let p4 := advanceP p3
              if p4.peek.type ≠ .CARET then
                let msg := "expected '^' for upper bound after lower bound in \\" ++ funcName
                .err msg (addErr p4 msg)
              else
                let p5 := advanceP p4
                if p5.peek.type ≠ .LBRACE then
                  let msg := "expected '\x7b' after '^' in \\" ++ funcName
                  .err msg (addErr p5 msg)
                else
                  match parseExpressionF n LOWEST (advanceP (advanceP p5)) with
                  | .ok upper p7 =>
                    if p7.peek.type ≠ .RBRACE then
                      let msg := "expected '\x7d' after upper bound in \\" ++ funcName
                      .err msg (addErr p7 msg)
                    else .ok (some lower, some upper) (advanceP p7)
                  | .err m st => .err m st
                  | .timeout => .timeout
          | .err m st => .err m st
          | .timeout => .timeout
      else .ok (none, none) p0
    match boundsRes with
    | .ok (lower, upper) pB =>
      let isDefinite := p0.peek.type = .UNDERSCORE
      match parseExpressionF n LOWEST (advanceP pB) with
      | .ok body pC =>
        if pC.peek.type = .IDENT ∧ strStartsWith pC.peek.literal "d" then
          .ok (.IntegralExpr isDefinite (pC.peek.literal.drop 1) lower upper body)
            (advanceP pC)
        else
          .ok (.IntegralExpr isDefinite "x" lower upper body) pC
      | r => r
    | .err m st => .err m st
    | .timeout => .timeout
termination_by structural x => x

/-- Port of parseLimitExpression up to the first skip loop (see
`skipSigA`); the rest is `parseLimitAfterSkipF`. -/
def parseLimitF : Nat → Bool → PState → PRes Expr
  | 0, _, _ => .timeout
  | n + 1, braceStyle, p0 =>
    if ¬braceStyle ∧ p0.peek.type ≠ .LBRACE then
      .err "expected '\x7b' after '_' in \\lim" (addErr p0 "expected '\x7b' after '_' in \\lim")
    else
      let p1 := if braceStyle then p0 else advanceP p0
      let p2 := advanceP p1
      if p2.cur.type ≠ .IDENT then
        .err "expected identifier for limit variable in \\lim"
          (addErr p2 "expected identifier for limit variable")
      else
        match skipSigA n (advanceP p2) with
        | none => .timeout
        | some p4 => parseLimitAfterSkipF n p2.cur.literal p4
termination_by structural x => x

/-- Port of the rest of parseLimitExpression: "to" detection (warning when
undetected), second skip loop, approach value, closing brace, body. -/
def parseLimitAfterSkipF : Nat → String → PState → PRes Expr
  | 0, _, _ => .timeout
  | n + 1, varName, p4 =>
    let (toFound, p5) := detectTo p4
    let p6 := if toFound then p5
      else addErr p5 "warning: couldn't find 'to' in limit expression, assuming implied"
    match skipSigB n p6 with
    | none => .timeout
    | some p7 =>
      match parseExpressionF n LOWEST p7 with
      | .ok approaches p8 =>
        if p8.peek.type ≠ .RBRACE then
          .err "expected '\x7d' after approach value in \\lim"
            (addErr p8 "expected '\x7d' after approach value in \\lim")
        else
          match parseExpressionF n LOWEST (advanceP (advanceP p8)) with
          | .ok body p10 => .ok (.LimitExpr varName approaches body) p10
          | .err m p10 =>
            .err ("failed to parse limit body expression: " ++ m)
              (addErr p10 ("failed to parse limit body expression: " ++ m))
          | .timeout => .timeout
      | r => r
termination_by structural x => x

/-- Port of the brace-argument collection loop of
parseCommandExpression. -/
def argLoopF : Nat → String → List Expr → PState → PRes (List Expr)
  | 0, _, _, _ => .timeout
  | n + 1, funcName, args, p =>
    if p.peek.type = .LBRACE then
      let p1 := advanceP p
      if p1.peek.type = .RBRACE then
        let msg := "argument expression cannot be empty inside \x7b\x7d for command \\" ++ funcName
        .err msg (addErr p1 msg)
      else
        match parseExpressionF n LOWEST (advanceP p1) with
        | .ok argExpr p3 =>
          let args := args ++ [argExpr]
          if p3.peek.type ≠ .RBRACE then
            let msg := "missing '\x7d' after argument for command \\" ++ funcName
            if p3.peek.type = .EOF then .err msg (addErr p3 msg)
            else .err msg (peekErrS p3 .RBRACE)
          else argLoopF n funcName args (advanceP p3)
        | .err m st => .err m st
        | .timeout => .timeout
    else .ok args p
termination_by structural x => x

/-- Port of parsePiecewiseExpression (\begin\x7bcases\x7d ... \end\x7bcases\x7d). -/
def parsePiecewiseF : Nat → PState → PRes Expr
  | 0, _ => .timeout
  | n + 1, p0 =>
    if p0.cur.type ≠ .BEGIN then
      .err "expected \\begin for piecewise expression" p0
    else if p0.peek.type ≠ .LBRACE then
      .err "expected '\x7b' after \\begin for cases environment"
        (addErr p0 "expected '\x7b' after \\begin for cases environment")
    else
      let p2 := advanceP (advanceP p0)
      if ¬(p2.cur.type = .IDENT ∧ p2.cur.literal = "cases") then
        .err "expected 'cases' for piecewise environment"
          (addErr p2 "expected 'cases' for piecewise environment")
      else if p2.peek.type ≠ .RBRACE then
        .err "expected '\x7d' after 'cases' in \\begin"
          (addErr p2 "expected '\x7d' after 'cases' in \\begin")
      else
        match casesLoopF n [] (advanceP (advanceP p2)) with
        | .ok cases p4 =>
          if p4.cur.type ≠ .END then
            .err "expected \\end for cases environment"
              (addErr p4 "expected \\end for cases environment")
          else if p4.peek.type ≠ .LBRACE then
            .err "expected '\x7b' after \\end" (addErr p4 "expected '\x7b' after \\end")
          else
            let p6 := advanceP (advanceP p4)
            if ¬(p6.cur.type = .IDENT ∧ p6.cur.literal = "cases") then
              .err "expected 'cases' in \\end\x7b\x7d"
                (addErr p6 "expected 'cases' in \\end\x7b\x7d")
            else if p6.peek.type ≠ .RBRACE then
              .err "expected '\x7d' after 'cases' in \\end"
                (addErr p6 "expected '\x7d' after 'cases' in \\end")
            else .ok (.PiecewiseExpr cases) (advanceP p6)
        | .err m st => .err m st
        | .timeout => .timeout
termination_by structural x => x

/-- Port of the case-collection loop of parsePiecewiseExpression. -/
def casesLoopF : Nat → List (Expr × Option Expr) → PState → PRes (List (Expr × Option Expr))
  | 0, _, _ => .timeout
  | n + 1, acc, p =>
    if p.cur.type = .END then .ok acc p
    else
      match parseExpressionF n LOWEST p with
      | .ok value p1 =>
        let condRes : PRes (Option Expr) :=
          if p1.peek.type = .IDENT ∧ p1.peek.literal = "&" then
            match parseExpressionF n LOWEST (advanceP p1) with
            | .ok c p2 => .ok (some c) p2
            | .err m st => .err m st
            | .timeout => .timeout
          else .ok none p1
        match condRes with
        | .ok condition p2 =>
          let p3 := if p2.peek.type = .COMMAND ∧ p2.peek.literal = "\\" then advanceP p2 else p2
          casesLoopF n (acc ++ [(value, condition)]) (advanceP p3)
        | .err m st => .err m st
        | .timeout => .timeout
      | .err m st => .err m st
      | .timeout => .timeout

termination_by structural x => x
end

/-- Joint error message built by ParseExpression/Parse from the
diagnostics list. -/
def joinedErrors (errs : List String) : String :=
  "parsing failed:\n\t" ++ String.intercalate "\n\t" errs

/-- Port of Parser.ParseExpression: parse at LOWEST, then fail if the
diagnostics list is non-empty or tokens remain before EOF. -/
def ParseExpressionF (fuel : Nat) (p : PState) : PRes Expr :=
  match parseExpressionF fuel LOWEST p with
  | .timeout => .timeout
  | .err m st => .err m st
  | .ok e st =>
    if st.errors.length > 0 then .err (joinedErrors st.errors) st
    else if st.peek.type ≠ .EOF then
      let st1 := peekErrS st .EOF
      if st1.errors.length > 0 then .err (joinedErrors st1.errors) st1
      else .err ("unexpected token '" ++ st1.peek.literal ++ "' after expression") st1
    else .ok e st

/-- Outcome of the public Parse entry point. -/
inductive ParseOut where
  | ok (e : Expr)
  | err (msg : String)
  | timeout
  deriving Repr

/-- Port of Parser.Parse (the public entry point): lex, parse, and fold
the diagnostics list into the returned error. -/
def ParseF (fuel : Nat) (input : String) : ParseOut :=
  match ParseExpressionF fuel (mkParser input) with
  | .timeout => .timeout
  | .ok e st => if st.errors.length > 0 then .err (joinedErrors st.errors) else .ok e
  | .err m st => if st.errors.length > 0 then .err (joinedErrors st.errors) else .err m

/-! ## Generator (internal/domain/generator/generator.go) -/

/-- Port of the goKeywords set. -/
def goKeywords : List String :=
  ["break", "default", "func", "interface", "select",
   "case", "defer", "go", "map", "struct",
   "chan", "else", "goto", "package", "switch",
   "const", "fallthrough", "if", "range", "type",
   "continue", "for", "import", "return", "var",
   "true", "false", "nil", "iota"]

/-- Port of sanitizeVariableName. -/
def sanitizeVariableName (name : String) : String :=
  if name ∈ goKeywords then name ++ "_" else name

/-- Models x/text `cases.Title(language.English, cases.Compact)` on the
single ASCII words the parser produces as function names: first letter
upper-cased, remaining letters lower-cased. -/
def titleCase (s : String) : String :=
  match s.toList with
  | [] => ""
  | c :: cs => (c.toUpper :: cs.map Char.toLower).asString

def supportedMathFuncs : List String := ["Sqrt", "Sin", "Cos", "Tan", "Pow"]

/-- Models the `node.Cases[len(node.Cases)-1]` index access performed by
generateExpr's PiecewiseExpr arm after its loop: in bounds exactly when the
case list is non-empty; on an empty list Go panics (index -1). -/
def lastCaseAccess (cs : List (Expr × Option Expr)) : Option (Expr × Option Expr) :=
  cs.get? (cs.length - 1)

mutual

/-- Port of Generator.generateExpr: lowers a node to
`(Go snippet, requires "math")`.  The only control-flow exit that is not a
return value in Go is the out-of-bounds index panic on an empty
PiecewiseExpr case list, modelled as `.error ()`. -/
def generateExpr : Expr → Except Unit (String × Bool)
  | .NumberLiteral v => pure (gFmt v, false)
  | .Variable name => pure (name, false)
  | .BinaryExpr op l r => do
    let (leftCode, leftNeedsMath) ← generateExpr l
    let (rightCode, rightNeedsMath) ← generateExpr r
    let needsMath := leftNeedsMath || rightNeedsMath
    if op = "^" then
      pure ("math.Pow(" ++ leftCode ++ ", " ++ rightCode ++ ")", true)
    else
      pure (leftCode ++ " " ++ op ++ " " ++ rightCode, needsMath)
  | .FuncCall funcName argsE =>
    if funcName = "frac" then
      match argsE with
      | [a, b] => do
        let (numeratorCode, numNeedsMath) ← generateExpr a
        let (denominatorCode, denNeedsMath) ← generateExpr b
        pure ("(" ++ numeratorCode ++ ") / (" ++ denominatorCode ++ ")",
          numNeedsMath || denNeedsMath)
      | _ => pure ("", false)
    else do
      -- Go accumulates a needsMath flag over the arguments here but never
      -- reads it: the unsupported branch returns false and the supported
      -- branch returns true unconditionally.
      let (args, _needsMath) ← genArgs argsE
      let goFuncName := titleCase funcName
      if ¬ goFuncName ∈ supportedMathFuncs ∧ funcName ≠ "pow" then
        pure ("/* unsupported function: " ++ funcName ++ " */", false)
      else
        pure ("math." ++ goFuncName ++ "(" ++ String.intercalate ", " args ++ ")", true)
  | .DerivativeExpr _ varN order body => do
    let (bodyCode, _) ← generateExpr body
    let base := ["func() float64 \x7b",
      "    // Numerical differentiation using central difference",
      "    h := 0.0001 // Small step size"]
    let mid :=
      if order = 1 then
        ["    " ++ varN ++ " := " ++ varN ++ " // Original point",
         "    fwd := func() float64 \x7b " ++ varN ++ " := " ++ varN ++ " + h; return " ++
           bodyCode ++ "; \x7d() // f(x+h)",
         "    bwd := func() float64 \x7b " ++ varN ++ " := " ++ varN ++ " - h; return " ++
           bodyCode ++ "; \x7d() // f(x-h)",
         "    return (fwd - bwd) / (2.0 * h)"]
      else if order = 2 then
        ["    " ++ varN ++ " := " ++ varN ++ " // Original point",
         "    fwd := func() float64 \x7b " ++ varN ++ " := " ++ varN ++ " + h; return " ++
           bodyCode ++ "; \x7d() // f(x+h)",
         "    ctr := " ++ bodyCode ++ " // f(x)",
         "    bwd := func() float64 \x7b " ++ varN ++ " := " ++ varN ++ " - h; return " ++
           bodyCode ++ "; \x7d() // f(x-h)",
         "    return (fwd - 2.0*ctr + bwd) / (h * h)"]
      else
        ["    // Higher-order derivatives not supported",
         "    return 0.0"]
    pure (String.intercalate "\n" (base ++ mid ++ ["\x7d()"]), true)
  | .PiecewiseExpr cases => do
    let (caseLines, loopNeedsMath) ← genCases cases 0 cases.length
    let piecewiseCode := ["func() float64 \x7b"] ++ caseLines
    match lastCaseAccess cases with
    | none => throw ()
    | some lastCase =>
      let (piecewiseCode, needsMath) :=
        if lastCase.2.isSome then
          (piecewiseCode ++
            ["    // No default case provided, returning NaN", "    return math.NaN()"],
           true)
        else (piecewiseCode, loopNeedsMath)
      pure (String.intercalate "\n" (piecewiseCode ++ ["\x7d()"]), needsMath)
  | .LimitExpr varN approaches body => do
    let (bodyCode, bodyNeedsMath) ← generateExpr body
    let (approachesCode, approachesNeedsMath) ← generateExpr approaches
    let limitCode := ["func() float64 \x7b",
      "    // Approximating limit by evaluating at a point very close to the target",
      "    epsilon := 1e-10 // Small value for approximation",
      "    target := " ++ approachesCode ++ " // Value approached",
      "    " ++ varN ++ " := float64(target) + epsilon // Set variable slightly above target",
      "    return " ++ bodyCode ++ " // Evaluate expression",
      "\x7d()"]
    pure (String.intercalate "\n" limitCode, bodyNeedsMath || approachesNeedsMath)
  | .IntegralExpr isDefinite varN lower upper body => do
    let (bodyCode, bodyNeedsMath) ← generateExpr body
    if isDefinite then do
      let (lowerCode, lowerNeedsMath) ← genOptExpr lower
      let (upperCode, upperNeedsMath) ← genOptExpr upper
      let integralCode := ["func() float64 \x7b",
        "    a := " ++ lowerCode ++ " // Lower bound",
        "    b := " ++ upperCode ++ " // Upper bound",
        "    n := 1000 // Number of intervals for numerical integration",
        "    h := (b - a) / float64(n)",
        "    sum := 0.0",
        "    for i := 0; i <= n; i++ \x7b",
        "        " ++ varN ++ " := a + float64(i)*h // Integration variable",
        "        fx := " ++ bodyCode ++ " // Integrand",
        "        weight := 1.0",
        "        if i == 0 || i == n \x7b",
        "            weight = 0.5",
        "        \x7d",
        "        sum += weight * fx",
        "    \x7d",
        "    return sum * h",
        "\x7d()"]
      pure (String.intercalate "\n" integralCode,
        bodyNeedsMath || lowerNeedsMath || upperNeedsMath)
    else
      pure ("/* Symbolic integration of " ++ bodyCode ++ " with respect to " ++ varN ++
        " not supported */", bodyNeedsMath)
  | .FactorialExpr v => do
    let (valueCode, _) ← generateExpr v
    pure ("math.Gamma(" ++ valueCode ++ " + 1.0)", true)
  | .SumExpr isProduct idx lower upper body => do
    let (lowCode, lowNeedsMath) ← generateExpr lower
    let (upCode, upNeedsMath) ← generateExpr upper
    let (bodyCode, bodyNeedsMath) ← generateExpr body
    let needsMath := lowNeedsMath || upNeedsMath || bodyNeedsMath
    let (initVal, op) := if isProduct then ("1.0", "*") else ("0.0", "+")
    let loop := ["result := " ++ initVal,
      "for " ++ idx ++ " := float64(int(" ++ lowCode ++ ")); " ++ idx ++
        " <= float64(int(" ++ upCode ++ ")); " ++ idx ++ "++ \x7b",
      "    result = result " ++ op ++ " (" ++ bodyCode ++ ")",
      "\x7d",
      "return result"]
    pure (String.intercalate "\n" loop, needsMath)
termination_by structural x => x

/-- Lowering of a nilable child: `g.generateExpr(nil)` falls into the Go
type switch's default arm, returning `("", false)`. -/
def genOptExpr : Option Expr → Except Unit (String × Bool)
  | none => pure ("", false)
  | some e => generateExpr e
termination_by structural x => x

/-- Argument lowering loop of the FuncCall arm. -/
def genArgs : List Expr → Except Unit (List String × Bool)
  | [] => pure ([], false)
  | a :: rest => do
    let (argCode, argNeedsMath) ← generateExpr a
    let (codes, needsMath) ← genArgs rest
    pure (argCode :: codes, argNeedsMath || needsMath)
termination_by structural x => x

/-- Case-emission loop of the PiecewiseExpr arm (`i` is the running index,
`total` the case count). -/
def genCases : List (Expr × Option Expr) → Nat → Nat → Except Unit (List String × Bool)
  | [], _, _ => pure ([], false)
  | (value, condition) :: rest, i, total => do
    let (valueCode, valueNeedsMath) ← generateExpr value
    let (lines1, m1) ←
      match condition with
      | none =>
        if i = total - 1 then
          pure (["    // Default case", "    return " ++ valueCode], valueNeedsMath)
        else
          pure (["    // ERROR: Unconditional case not at end", "    return " ++ valueCode],
            valueNeedsMath)
      | some cond => do
        let (conditionCode, condNeedsMath) ← generateExpr cond
        if i = 0 then
          pure (["    if " ++ conditionCode ++ " \x7b", "        return " ++ valueCode,
            "    \x7d"], valueNeedsMath || condNeedsMath)
        else
          pure (["    else if " ++ conditionCode ++ " \x7b", "        return " ++ valueCode,
            "    \x7d"], valueNeedsMath || condNeedsMath)
    let (linesR, mR) ← genCases rest (i + 1) total
    pure (lines1 ++ linesR, m1 || mR)

termination_by structural x => x
end

/-- Insertion into the collected-variable set (Go: `vars[name] = struct{}{}`
on a map used as a set); the list keeps first-insertion order and no
duplicates, i.e. exactly the map's key set. -/
def insertVar (v : String) (acc : List String) : List String :=
  if v ∈ acc then acc else acc ++ [v]

mutual

/-- Port of the `collect` closure in Generate: gather sanitized free
variable names, excluding the nearest enclosing bound variable
(`loopVar`). -/
def collectVars : Expr → String → List String → List String
  | .NumberLiteral _, _, acc => acc
  | .Variable nm, loopVar, acc =>
    if nm ≠ loopVar then insertVar (sanitizeVariableName nm) acc else acc
  | .BinaryExpr _ l r, loopVar, acc => collectVars r loopVar (collectVars l loopVar acc)
  | .FuncCall funcName argsE, loopVar, acc =>
    if funcName ≠ "frac" then collectArgs argsE loopVar acc
    else
      match argsE with
      | [a, b] => collectVars b loopVar (collectVars a loopVar acc)
      | _ => acc
  | .SumExpr _ v l u b, loopVar, acc =>
    collectVars b v (collectVars u loopVar (collectVars l loopVar acc))
  | .IntegralExpr isDefinite v l u b, loopVar, acc =>
    let acc := if isDefinite then collectOpt u loopVar (collectOpt l loopVar acc) else acc
    collectVars b v acc
  | .DerivativeExpr _ v _ b, _, acc => collectVars b v acc
  | .LimitExpr v a b, loopVar, acc => collectVars b v (collectVars a loopVar acc)
  | .FactorialExpr v, loopVar, acc => collectVars v loopVar acc
  | .PiecewiseExpr cases, loopVar, acc => collectCases cases loopVar acc
termination_by structural x => x

def collectOpt : Option Expr → String → List String → List String
  | none, _, acc => acc
  | some e, loopVar, acc => collectVars e loopVar acc
termination_by structural x => x

def collectArgs : List Expr → String → List String → List String
  | [], _, acc => acc
  | a :: rest, loopVar, acc => collectArgs rest loopVar (collectVars a loopVar acc)
termination_by structural x => x

def collectCases : List (Expr × Option Expr) → String → List String → List String
  | [], _, acc => acc
  | (value, condition) :: rest, loopVar, acc =>
    let acc := collectVars value loopVar acc
    let acc := match condition with
      | some cond => collectVars cond loopVar acc
      | none => acc
    collectCases rest loopVar acc

termination_by structural x => x
end

/-- The collected variable set of an AST (the key set of Go's `vars` map,
in first-insertion order), starting with no loop-variable context. -/
def collectVarList (root : Expr) : List String :=
  collectVars root "" []

/-- Byte-wise (here: code-point-wise, identical on the ASCII names that
occur) lexicographic comparison, as sort.Strings compares Go strings. -/
def leChars : List Char → List Char → Bool
  | [], _ => true
  | _ :: _, [] => false
  | a :: as, b :: bs =>
    if a.toNat < b.toNat then true
    else if b.toNat < a.toNat then false
    else leChars as bs

def leStr (a b : String) : Bool := leChars a.toList b.toList

/-- Port of sort.Strings (lexicographic ascending sort; implemented here
as insertion sort, any correct sort gives the same list). -/
def sortStrings (l : List String) : List String :=
  l.insertionSort (fun a b => leStr a b = true)

/-- Parameter-list text built from the sorted names. -/
def paramsStrOf (names : List String) : String :=
  if names.length > 0 then
    String.intercalate ", " (names.map (fun v => v ++ " float64"))
  else ""

/-- Newline split, modelling the strings.Split(s, "\n") call in the
indent helper. -/
def splitNl : List Char → List (List Char)
  | [] => [[]]
  | c :: cs =>
    if c = '\n' then [] :: splitNl cs
    else
      match splitNl cs with
      | [] => [[c]]
      | h :: t => (c :: h) :: t

/-- Port of the indent helper. -/
def indentStr (s pre : String) : String :=
  String.intercalate "\n" ((splitNl s.toList).map (fun line => pre ++ line.asString))

def isSumRoot : Expr → Bool
  | .SumExpr .. => true
  | _ => false

/-- Models the `fmt.Sscanf(codeBody, "/* unsupported function: %s */", ...)`
extraction in Generate: skip the 25-character literal prefix and read the
following non-space run. -/
def extractUnsupportedName (codeBody : String) : String :=
  ((codeBody.toList.drop 25).takeWhile (fun c => c ≠ ' ')).asString

/-- Error outcome of Generate: either a Go runtime panic (empty piecewise
case list) or a returned error. -/
inductive GenError where
  | panicked
  | failed (msg : String)
  deriving DecidableEq, Repr

/-- Port of Generator.Generate, parameterized by `iterOrder`: the order in
which Go's `for v := range vars` loop happens to enumerate the collected
variable map — unspecified in Go, always a permutation of the key set.
The success value is the assembled source string (see the header comment
on the formatting step). -/
def GenerateWith (iterOrder : List String) (root : Expr) (pkgName funcName : String) :
    Except GenError String :=
  match generateExpr root with
  | .error _ => .error .panicked
  | .ok (codeBody, needsMath) =>
    if strStartsWith codeBody "/* unsupported function:" then
      .error (.failed ("unsupported LaTeX function: " ++ extractUnsupportedName codeBody))
    else
      let header :=
        if needsMath then "package " ++ pkgName ++ "\n\nimport \"math\"\n\n"
        else "package " ++ pkgName ++ "\n\n"
      let params := paramsStrOf (sortStrings iterOrder)
      let funcBody :=
        if isSumRoot root then
          "func " ++ funcName ++ "(" ++ params ++ ") float64 \x7b\n" ++
            indentStr codeBody "\t" ++ "\n\x7d"
        else
          "func " ++ funcName ++ "(" ++ params ++ ") float64 \x7b\n\treturn " ++
            codeBody ++ "\n\x7d"
      .ok (header ++ funcBody)

/-- The public Generate entry point (map iteration order instantiated with
the canonical key list; the result does not depend on that choice, since
the names are sorted before use). -/
def Generate (root : Expr) (pkgName funcName : String) : Except GenError String :=
  GenerateWith (collectVarList root) root pkgName funcName

/-! ## Subexpression enumeration

Used only in theorem statements to speak about "some subexpression of the
AST" (every subterm, the root included). -/

mutual

def subexprs : Expr → List Expr
  | .NumberLiteral v => [.NumberLiteral v]
  | .Variable n => [.Variable n]
  | .BinaryExpr op l r => .BinaryExpr op l r :: (subexprs l ++ subexprs r)
  | .FuncCall f args => .FuncCall f args :: subexprsList args
  | .SumExpr ip v l u b => .SumExpr ip v l u b :: (subexprs l ++ subexprs u ++ subexprs b)
  | .IntegralExpr d v l u b =>
    .IntegralExpr d v l u b :: (subexprsOpt l ++ subexprsOpt u ++ subexprs b)
  | .DerivativeExpr ip v o b => .DerivativeExpr ip v o b :: subexprs b
  | .LimitExpr v a b => .LimitExpr v a b :: (subexprs a ++ subexprs b)
  | .FactorialExpr v => .FactorialExpr v :: subexprs v
  | .PiecewiseExpr cs => .PiecewiseExpr cs :: subexprsCases cs
termination_by structural x => x

def subexprsOpt : Option Expr → List Expr
  | none => []
  | some e => subexprs e
termination_by structural x => x

def subexprsList : List Expr → List Expr
  | [] => []
  | e :: rest => subexprs e ++ subexprsList rest
termination_by structural x => x

def subexprsCases : List (Expr × Option Expr) → List Expr
  | [] => []
  | (v, c) :: rest => subexprs v ++ subexprsOpt c ++ subexprsCases rest

termination_by structural x => x
end

/-! ## Projections used in theorem statements -/

def PRes.val? {α : Type} : PRes α → Option α
  | .ok v _ => some v
  | _ => none

def PRes.errsOf {α : Type} : PRes α → Option (List String)
  | .ok _ st => some st.errors
  | .err _ st => some st.errors
  | .timeout => none

/-! ## Helper lemmas -/

theorem toList_append (s t : String) : (s ++ t).toList = s.toList ++ t.toList :=
  String.data_append s t

theorem asString_toList (s : String) : s.toList.asString = s := by
  cases s; rfl

theorem takeWhile_append_all {α : Type} (p : α → Bool) :
    ∀ (l₁ l₂ : List α), (∀ a ∈ l₁, p a = true) →
      (l₁ ++ l₂).takeWhile p = l₁ ++ l₂.takeWhile p
  | [], _, _ => by simp
  | a :: l₁, l₂, h => by
    have ha : p a = true := h a (by simp)
    have ih := takeWhile_append_all p l₁ l₂ (fun x hx => h x (by simp [hx]))
    simp [List.takeWhile_cons, ha, ih]

theorem leChars_total : ∀ (x y : List Char), leChars x y = true ∨ leChars y x = true
  | [], _ => Or.inl rfl
  | _ :: _, [] => Or.inr rfl
  | a :: as, b :: bs => by
    rcases Nat.lt_trichotomy a.toNat b.toNat with h | h | h
    · exact Or.inl (by simp [leChars, h])
    · rcases leChars_total as bs with ih | ih
      · refine Or.inl ?_
        simp only [leChars, if_neg (show ¬ a.toNat < b.toNat by omega),
          if_neg (show ¬ b.toNat < a.toNat by omega)]
        exact ih
      · refine Or.inr ?_
        simp only [leChars, if_neg (show ¬ b.toNat < a.toNat by omega),
          if_neg (show ¬ a.toNat < b.toNat by omega)]
        exact ih
    · exact Or.inr (by simp [leChars, h])

theorem leChars_trans : ∀ (x y z : List Char),
    leChars x y = true → leChars y z = true → leChars x z = true
  | [], _, _, _, _ => rfl
  | _ :: _, [], _, hxy, _ => by simp [leChars] at hxy
  | _ :: _, _ :: _, [], _, hyz => by simp [leChars] at hyz
  | a :: as, b :: bs, c :: cs, hxy, hyz => by
    rcases Nat.lt_trichotomy a.toNat b.toNat with h1 | h1 | h1
    · rcases Nat.lt_trichotomy b.toNat c.toNat with h2 | h2 | h2
      · simp [leChars, show a.toNat < c.toNat by omega]
      · simp [leChars, show a.toNat < c.toNat by omega]
      · simp [leChars, Nat.lt_asymm h2, h2] at hyz
    · have hxy' : leChars as bs = true := by
        simpa [leChars, h1, Nat.lt_irrefl] using hxy
      rcases Nat.lt_trichotomy b.toNat c.toNat with h2 | h2 | h2
      · simp [leChars, show a.toNat < c.toNat by omega]
      · have hyz' : leChars bs cs = true := by
          simpa [leChars, h2, Nat.lt_irrefl] using hyz
        simp only [leChars, if_neg (show ¬ a.toNat < c.toNat by omega),
          if_neg (show ¬ c.toNat < a.toNat by omega)]
        exact leChars_trans as bs cs hxy' hyz'
      · simp [leChars, Nat.lt_asymm h2, h2] at hyz
    · simp [leChars, Nat.lt_asymm h1, h1] at hxy

theorem leChars_antisymm : ∀ (x y : List Char),
    leChars x y = true → leChars y x = true → x = y
  | [], [], _, _ => rfl
  | [], _ :: _, _, hyx => by simp [leChars] at hyx
  | _ :: _, [], hxy, _ => by simp [leChars] at hxy
  | a :: as, b :: bs, hxy, hyx => by
    rcases Nat.lt_trichotomy a.toNat b.toNat with h | h | h
    · simp [leChars, Nat.lt_asymm h, h] at hyx
    · have hab : a = b := Char.ext (UInt32.toNat.inj h)
      subst hab
      have hxy' : leChars as bs = true := by
        simpa [leChars, Nat.lt_irrefl] using hxy
      have hyx' : leChars bs as = true := by
        simpa [leChars, Nat.lt_irrefl] using hyx
      rw [leChars_antisymm as bs hxy' hyx']
    · simp [leChars, Nat.lt_asymm h, h] at hxy

theorem leStr_total (a b : String) : leStr a b = true ∨ leStr b a = true :=
  leChars_total _ _

theorem leStr_trans {a b c : String} (h1 : leStr a b = true) (h2 : leStr b c = true) :
    leStr a c = true :=
  leChars_trans _ _ _ h1 h2

theorem leStr_antisymm {a b : String} (h1 : leStr a b = true) (h2 : leStr b a = true) :
    a = b := by
  have h := leChars_antisymm a.toList b.toList h1 h2
  cases a; cases b; exact congrArg String.mk h

theorem sortStrings_perm_eq {l₁ l₂ : List String} (h : l₁.Perm l₂) :
    sortStrings l₁ = sortStrings l₂ := by
  have ht : IsTotal String (fun a b => leStr a b = true) := ⟨leStr_total⟩
  have htr : IsTrans String (fun a b => leStr a b = true) := ⟨fun _ _ _ => leStr_trans⟩
  have has : IsAntisymm String (fun a b => leStr a b = true) := ⟨fun _ _ => leStr_antisymm⟩
  exact @List.eq_of_perm_of_sorted String (fun a b => leStr a b = true) has _ _
    (((@List.perm_insertionSort String (fun a b => leStr a b = true) _ l₁).trans h).trans
      (@List.perm_insertionSort String (fun a b => leStr a b = true) _ l₂).symm)
    (@List.sorted_insertionSort String (fun a b => leStr a b = true) _ ht htr l₁)
    (@List.sorted_insertionSort String (fun a b => leStr a b = true) _ ht htr l₂)

theorem unsupported_comment_toList (name : String) :
    ("/* unsupported function: " ++ name ++ " */").toList =
      "/* unsupported function: ".toList ++ (name.toList ++ " */".toList) := by
  simp [toList_append, List.append_assoc]

theorem unsupported_comment_startsWith (name : String) :
    strStartsWith ("/* unsupported function: " ++ name ++ " */")
      "/* unsupported function:" = true := by
  unfold strStartsWith
  rw [List.isPrefixOf_iff_prefix, unsupported_comment_toList]
  have h1 : "/* unsupported function:".toList <+: "/* unsupported function: ".toList := by
    decide
  exact h1.trans (List.prefix_append _ _)

theorem unsupported_comment_extract (name : String)
    (hsp : ∀ c ∈ name.toList, c ≠ ' ') :
    extractUnsupportedName ("/* unsupported function: " ++ name ++ " */") = name := by
  unfold extractUnsupportedName
  rw [unsupported_comment_toList]
  have h25 : ("/* unsupported function: ".toList).length = 25 := by decide
  rw [← h25, List.drop_left]
  rw [takeWhile_append_all _ name.toList _ (fun a ha => by simpa using hsp a ha)]
  have htail : " */".toList.takeWhile (fun c => decide (c ≠ ' ')) = [] := by decide
  rw [htail, List.append_nil]
  exact asString_toList name

/-! ## Claim inputs and fixed ASTs -/

def astAB : Expr := .BinaryExpr "+" (.Variable "a") (.Variable "b")

def astPow : Expr := .BinaryExpr "^" (.Variable "a") (.Variable "b")

def astSqrt : Expr := .FuncCall "sqrt" [.Variable "x"]

def astLog : Expr := .FuncCall "log" [.Variable "x"]

def astSum : Expr :=
  .SumExpr false "i" (.NumberLiteral 1) (.Variable "n") (.Variable "i")

/-- The truncated limit input `\lim_\x7bx` (claim C2). -/
def c2Input : String := "\\lim_\x7bx"

/-- The parser state parseLimitExpression's first skip loop reaches on
`c2Input`: both tokens are EOF and the lexer is exhausted.  This state is
a fixed point of nextToken, so the skip loop never exits. -/
def c2Stuck : PState := ⟨⟨[], 7⟩, ⟨.EOF, "", 7⟩, ⟨.EOF, "", 7⟩, []⟩

theorem skipSigA_stuck : ∀ m, skipSigA m c2Stuck = none
  | 0 => rfl
  | m + 1 => skipSigA_stuck m

/-- The limit input whose "to" separator is undetectable (claim C3). -/
def c3Input : String := "\\lim_\x7bx 5\x7d x"

def c3Warning : String :=
  "parse error at pos 8: warning: couldn't find 'to' in limit expression, assuming implied"

def c6Bad : Expr := .PiecewiseExpr [(.FuncCall "log" [astPow], none)]

def c6BadSrc : String :=
  "package m\n\nfunc f(a float64, b float64) float64 \x7b\n\treturn func() float64 \x7b\n    // Default case\n    return /* unsupported function: log */\n\x7d()\n\x7d"

/-! ## Claim theorems -/

/-- C1, counterexample.  The claim "for every grammar-accepted input,
Generate succeeds and returns syntactically valid source" is false:
`\log\x7bx\x7d` is accepted by the parser (the generic command grammar accepts
any command with brace arguments), yet Generate returns the
unsupported-function error instead of succeeding. -/
theorem c1_counterexample :
    ParseF 200 "\\log\x7bx\x7d" = .ok astLog ∧
    Generate astLog "m" "f" = .error (.failed "unsupported LaTeX function: log") :=
  ⟨rfl, rfl⟩

/-- C1, amended: parse success does not imply generate success (see the
counterexample); on grammar-accepted inputs built from supported
constructs, such as `a + b`, parse-then-generate does succeed, and the
source it hands to the formatter is the expected well-formed function. -/
theorem c1_amended :
    ParseF 200 "a + b" = .ok astAB ∧
    Generate astAB "m" "f" =
      .ok "package m\n\nfunc f(a float64, b float64) float64 \x7b\n\treturn a + b\n\x7d" :=
  ⟨rfl, rfl⟩

/-- C2.  The claim "Parse terminates on every input string" is false: on
the truncated input `\lim_\x7bx`, parseLimitExpression's first skip loop spins
on EOF tokens forever (the lexer returns EOF at the end of input for
every call, and EOF is not in the loop's stop set), so Parse never
returns at any fuel. -/
theorem c2_parse_diverges : ∀ n, ParseF n c2Input = .timeout := by
  intro n
  match n with
  | 0 => rfl
  | 1 => rfl
  | 2 => rfl
  | m + 3 =>
    have hLim : parseLimitF (m + 1) false (advanceP (mkParser c2Input)) = .timeout := by
      show (match skipSigA m c2Stuck with
            | none => (PRes.timeout : PRes Expr)
            | some p4 => parseLimitAfterSkipF m "x" p4) = PRes.timeout
      rw [skipSigA_stuck m]
    have hCmd : parseCommandF (m + 2) (mkParser c2Input) = .timeout := by
      show parseLimitF (m + 1) false (advanceP (mkParser c2Input)) = PRes.timeout
      exact hLim
    have hExpr : parseExpressionF (m + 3) LOWEST (mkParser c2Input) = .timeout := by
      show (match parseCommandF (m + 2) (mkParser c2Input) with
            | .ok left p' => prattLoopF (m + 2) LOWEST left p'
            | r => r) = PRes.timeout
      rw [hCmd]
    have hPE : ParseExpressionF (m + 3) (mkParser c2Input) = .timeout := by
      unfold ParseExpressionF
      rw [hExpr]
    unfold ParseF
    rw [hPE]

/-- C3.  The claim "when the `to` separator of a `\lim` is undetectable,
Parse still returns a LimitExpr result without error" is false on the
public entry point: parseExpression does produce the LimitExpr and only a
warning diagnostic, but Parse errors whenever the diagnostics list is
non-empty, so the warning makes the parse fail (contradicting the code's
own "don't fail the parse" comment). -/
theorem c3_lim_warning_fails_parse :
    (parseExpressionF 200 LOWEST (mkParser c3Input)).val? =
      some (.LimitExpr "x" (.NumberLiteral 5) (.Variable "x")) ∧
    (parseExpressionF 200 LOWEST (mkParser c3Input)).errsOf = some [c3Warning] ∧
    ParseF 200 c3Input = .err ("parsing failed:\n\t" ++ c3Warning) :=
  ⟨rfl, rfl, rfl⟩

/-- C4, counterexample.  The claim "an unsupported function name anywhere
in the tree makes Generate fail fast naming the offender" is false: the
check only fires when the placeholder comment is a prefix of the whole
generated body, so `sqrt(log(x))` — an AST containing the unsupported
FuncCall "log" nested inside sqrt — generates successfully, with the
placeholder comment embedded in the emitted source. -/
theorem c4_counterexample :
    (Expr.FuncCall "log" [.Variable "x"]) ∈ subexprs (.FuncCall "sqrt" [astLog]) ∧
    Generate (.FuncCall "sqrt" [astLog]) "m" "f" =
      .ok "package m\n\nimport \"math\"\n\nfunc f(x float64) float64 \x7b\n\treturn math.Sqrt(/* unsupported function: log */)\n\x7d" := by
  constructor
  · show _ ∈ subexprs (.FuncCall "sqrt" [astLog])
    rw [show subexprs (.FuncCall "sqrt" [astLog]) =
      [.FuncCall "sqrt" [astLog], astLog, .Variable "x"] from rfl]
    exact List.Mem.tail _ (List.Mem.head _)
  · rfl

/-- C4, amended: Generate fails fast with an error naming the offending
function when the unsupported FuncCall is at the root (so its placeholder
comment is the prefix of the generated body); nested elsewhere it is not
detected (see the counterexample). -/
theorem c4_amended (name pkg fn : String)
    (hsup : titleCase name ∉ supportedMathFuncs) (hpow : name ≠ "pow")
    (hfrac : name ≠ "frac") (hsp : ∀ c ∈ name.toList, c ≠ ' ') :
    Generate (.FuncCall name [.Variable "x"]) pkg fn =
      .error (.failed ("unsupported LaTeX function: " ++ name)) := by
  have hgen : generateExpr (.FuncCall name [.Variable "x"]) =
      .ok ("/* unsupported function: " ++ name ++ " */", false) := by
    simp only [generateExpr]
    rw [if_neg hfrac]
    rw [show genArgs [Expr.Variable "x"] = Except.ok (["x"], false) from rfl]
    show (if ¬ titleCase name ∈ supportedMathFuncs ∧ name ≠ "pow" then
        (pure ("/* unsupported function: " ++ name ++ " */", false) : Except Unit (String × Bool))
      else pure ("math." ++ titleCase name ++ "(" ++ String.intercalate ", " ["x"] ++ ")", true)) =
      .ok ("/* unsupported function: " ++ name ++ " */", false)
    rw [if_pos ⟨hsup, hpow⟩]
    rfl
  have hcoll : collectVarList (.FuncCall name [.Variable "x"]) = ["x"] := by
    show (if name ≠ "frac" then collectArgs [.Variable "x"] "" [] else []) = ["x"]
    rw [if_pos hfrac]
    rfl
  unfold Generate GenerateWith
  rw [hcoll, hgen]
  show (if strStartsWith ("/* unsupported function: " ++ name ++ " */")
      "/* unsupported function:" = true then _ else _) = _
  rw [if_pos (unsupported_comment_startsWith name), unsupported_comment_extract name hsp]

/-- C4, witness for the amended theorem at name = "log". -/
theorem c4_amended_witness :
    (titleCase "log" ∉ supportedMathFuncs) ∧ "log" ≠ "pow" ∧ "log" ≠ "frac" ∧
    (∀ c ∈ "log".toList, c ≠ ' ') ∧
    Generate (.FuncCall "log" [.Variable "x"]) "m" "f" =
      .error (.failed ("unsupported LaTeX function: " ++ "log")) :=
  ⟨by decide, by decide, by decide, by decide,
   c4_amended "log" "m" "f" (by decide) (by decide) (by decide) (by decide)⟩

/-- C5.  `^` is right-associative: `a ^ b ^ c` parses as `a ^ (b ^ c)`
(the right operand of `^` is parsed at precedence − 1), while
`(a ^ b) ^ c` parses as the left-nested tree, and the two trees differ. -/
theorem c5_caret_right_assoc :
    ParseF 200 "a ^ b ^ c" =
      .ok (.BinaryExpr "^" (.Variable "a")
        (.BinaryExpr "^" (.Variable "b") (.Variable "c"))) ∧
    ParseF 200 "(a ^ b) ^ c" =
      .ok (.BinaryExpr "^" (.BinaryExpr "^" (.Variable "a") (.Variable "b"))
        (.Variable "c")) ∧
    (Expr.BinaryExpr "^" (.Variable "a") (.BinaryExpr "^" (.Variable "b") (.Variable "c")) ≠
      Expr.BinaryExpr "^" (.BinaryExpr "^" (.Variable "a") (.Variable "b")) (.Variable "c")) :=
  ⟨rfl, rfl, by simp⟩

/-- C6, counterexample.  The claim's "the import is emitted iff some
lowered subexpression set the requires-numeric-library flag" is false:
in `piecewise [log(a ^ b) default]` the subexpression `a ^ b` lowers with
the flag set, but the enclosing unsupported-function placeholder discards
its arguments' flags, the prefix check does not fire (the placeholder is
not at the start of the body), and Generate succeeds without the math
import. -/
theorem c6_counterexample :
    astPow ∈ subexprs c6Bad ∧
    generateExpr astPow = .ok ("math.Pow(a, b)", true) ∧
    Generate c6Bad "m" "f" = .ok c6BadSrc ∧
    containsStr c6BadSrc "import" = false ∧
    containsStr c6BadSrc "math" = false := by
  refine ⟨?_, rfl, rfl, by decide, by decide⟩
  rw [show subexprs c6Bad =
    [c6Bad, .FuncCall "log" [astPow], astPow, .Variable "a", .Variable "b"] from rfl]
  exact List.Mem.tail _ (List.Mem.tail _ (List.Mem.head _))

/-- C6, amended: `a + b` generates with no numeric-library import while
`a ^ b` and `sqrt(x)` generate with it; the import tracks the flag
returned by the lowering of the root (bottom-up disjunction of the
children's flags, except that an unsupported-function placeholder
discards its arguments' flags — see the counterexample). -/
theorem c6_amended :
    (ParseF 200 "a + b" = .ok astAB ∧
      Generate astAB "m" "f" =
        .ok "package m\n\nfunc f(a float64, b float64) float64 \x7b\n\treturn a + b\n\x7d" ∧
      containsStr "package m\n\nfunc f(a float64, b float64) float64 \x7b\n\treturn a + b\n\x7d"
        "import" = false) ∧
    (ParseF 200 "a ^ b" = .ok astPow ∧
      Generate astPow "m" "f" =
        .ok "package m\n\nimport \"math\"\n\nfunc f(a float64, b float64) float64 \x7b\n\treturn math.Pow(a, b)\n\x7d" ∧
      containsStr
        "package m\n\nimport \"math\"\n\nfunc f(a float64, b float64) float64 \x7b\n\treturn math.Pow(a, b)\n\x7d"
        "import \"math\"" = true) ∧
    (ParseF 200 "\\sqrt\x7bx\x7d" = .ok astSqrt ∧
      Generate astSqrt "m" "f" =
        .ok "package m\n\nimport \"math\"\n\nfunc f(x float64) float64 \x7b\n\treturn math.Sqrt(x)\n\x7d" ∧
      containsStr
        "package m\n\nimport \"math\"\n\nfunc f(x float64) float64 \x7b\n\treturn math.Sqrt(x)\n\x7d"
        "import \"math\"" = true) ∧
    (generateExpr astPow = .ok ("math.Pow(a, b)", true) ∧
      generateExpr (.FuncCall "log" [astPow]) =
        .ok ("/* unsupported function: log */", false)) :=
  ⟨⟨rfl, rfl, by decide⟩, ⟨rfl, rfl, by decide⟩, ⟨rfl, rfl, by decide⟩, rfl, rfl⟩

/-- C7.  `\sum_\x7bi=1\x7d^\x7bn\x7d i` parses to the expected SumExpr; the sum's
bound variable `i` is excluded from the collected free variables, so the
generated function's parameter list is exactly `(n float64)` and `i`
never appears as a parameter. -/
theorem c7_sum_params :
    ParseF 200 "\\sum_\x7bi=1\x7d^\x7bn\x7d i" = .ok astSum ∧
    sortStrings (collectVarList astSum) = ["n"] ∧
    Generate astSum "m" "f" =
      .ok "package m\n\nfunc f(n float64) float64 \x7b\n\tresult := 0.0\n\tfor i := float64(int(1)); i <= float64(int(n)); i++ \x7b\n\t    result = result + (i)\n\t\x7d\n\treturn result\n\x7d" :=
  ⟨rfl, rfl, rfl⟩

/-- C8.  The claim "a keyword-colliding variable name gets the sanitizing
suffix in the emitted code, so the body text matches the sanitized
parameter name" is false of the lowering: generateExpr emits the raw name
(`for`), while only the collected parameter set is sanitized (`for_`), so
body and parameter disagree; the emitted function for `for + 1` reads
`func f(for_ float64)` but `return for + 1`. -/
theorem c8_keyword_variable_not_sanitized_in_body :
    generateExpr (.Variable "for") = .ok ("for", false) ∧
    sanitizeVariableName "for" = "for_" ∧
    ParseF 200 "for + 1" = .ok (.BinaryExpr "+" (.Variable "for") (.NumberLiteral 1)) ∧
    Generate (.BinaryExpr "+" (.Variable "for") (.NumberLiteral 1)) "m" "f" =
      .ok "package m\n\nfunc f(for_ float64) float64 \x7b\n\treturn for + 1\n\x7d" ∧
    containsStr "package m\n\nfunc f(for_ float64) float64 \x7b\n\treturn for + 1\n\x7d"
      "return for_" = false :=
  ⟨rfl, rfl, rfl, rfl, by decide⟩

/-- C9.  Generate is deterministic: its output does not depend on the
order in which Go's map iteration happens to enumerate the collected
variable set (any permutation of the key list), because the names are
sorted before the parameter list is built; in particular two runs on
structurally equal ASTs give byte-identical output. -/
theorem c9_generate_deterministic (root : Expr) (pkg fn : String)
    (o₁ o₂ : List String) (h₁ : o₁.Perm (collectVarList root))
    (h₂ : o₂.Perm (collectVarList root)) :
    GenerateWith o₁ root pkg fn = GenerateWith o₂ root pkg fn := by
  have hs : sortStrings o₁ = sortStrings o₂ := sortStrings_perm_eq (h₁.trans h₂.symm)
  simp only [GenerateWith, hs]

/-- C9, witness: two different enumeration orders of the variable set of
`a + b` produce the same output. -/
theorem c9_generate_deterministic_witness :
    (["b", "a"].Perm (collectVarList astAB)) ∧
    (["a", "b"].Perm (collectVarList astAB)) ∧
    GenerateWith ["b", "a"] astAB "m" "f" = GenerateWith ["a", "b"] astAB "m" "f" :=
  ⟨by decide, by decide,
   c9_generate_deterministic astAB "m" "f" ["b", "a"] ["a", "b"] (by decide) (by decide)⟩

/-- C10.  The `Cases[len(Cases)-1]` access in generateExpr's PiecewiseExpr
arm is in bounds exactly when the case list is non-empty; on an empty
case list the access is out of bounds (Go panics), and that panic is
reachable through the public Generate interface. -/
theorem c10_piecewise_empty_panic :
    (∀ (c : Expr × Option Expr) (cs : List (Expr × Option Expr)),
      (lastCaseAccess (c :: cs)).isSome = true) ∧
    lastCaseAccess [] = none ∧
    generateExpr (.PiecewiseExpr []) = .error () ∧
    Generate (.PiecewiseExpr []) "m" "f" = .error .panicked := by
  refine ⟨?_, rfl, rfl, rfl⟩
  have key : ∀ (l : List (Expr × Option Expr)) (a : Expr × Option Expr),
      ((a :: l).get? l.length).isSome = true := by
    intro l
    induction l with
    | nil => intro a; rfl
    | cons b t ih => intro a; exact ih b
  intro c cs
  exact key cs c

end Latex2Go
